import Mathlib

/-!
Shallow embedding of `src/peterw-C++/Day18/Day18p2.cpp` (Advent of Code 2017,
Day 18 part 2): a two-machine register interpreter with message queues.

Modelling conventions:
* `Value` (= C++ `int64_t`) is embedded as unbounded `Int`; none of the
  verified properties exercises 64-bit wraparound of the registers.
* `std::queue<Value>` is embedded as `List Int` with push at the back
  (`++ [v]`) and pop at the front.
* `array<Value, 26>` is embedded as a `List Int` of length 26; indexing
  `regs[r - 'a']` becomes `List.getD`/`List.set` at index
  `r.toNat - 'a'.toNat`.
* C++ undefined behavior that is actually reachable in the modelled code
  (the unguarded `%` with zero divisor in `ModInstr::execute`) makes
  execution partial: `Instr.execute` returns `Option`, with `none` as the
  undefined-behavior outcome.
* Exceptions thrown by the parser (`std::stoi`'s `invalid_argument` /
  `out_of_range`, `std::get`'s `bad_variant_access`, the explicit
  `throw std::exception()` on an unknown mnemonic, `substr`'s
  `out_of_range`) are embedded as `Except PErr`.
* Input lines are embedded as `List Char`.
-/

deriving instance DecidableEq for Except

namespace Day18

/-- C++ `using Value = int64_t;` (embedded as unbounded `Int`). -/
abbrev Value := Int

/-- C++ `using Operand = variant<Value, Register>;`. -/
inductive Operand where
  | val (v : Value)
  | reg (r : Char)
  deriving DecidableEq

/-- C++ `enum class Intr { None, Stop, Send, Receive };`. -/
inductive Intr where
  | None
  | Stop
  | Send
  | Receive
  deriving DecidableEq

/-- The seven instruction variants (`SndInstr` .. `JgzInstr`). -/
inductive Instr where
  | snd (x : Operand)
  | set (x : Char) (y : Operand)
  | add (x : Char) (y : Operand)
  | mul (x : Char) (y : Operand)
  | mod (x : Char) (y : Operand)
  | rcv (x : Char)
  | jgz (x : Operand) (y : Operand)
  deriving DecidableEq

/-- C++ `struct State`: program counter, 26 registers, input/output queues.
The (read-only) reference to the shared `Program` is passed separately to
`executeOne` instead of being stored in the state. -/
structure State where
  pc : Int
  regs : List Value
  input : List Value
  output : List Value
  deriving DecidableEq

/-- Member `State::getRegister`: `regs[r - 'a']`. -/
def State.getRegister (s : State) (r : Char) : Value :=
  s.regs.getD (r.toNat - 'a'.toNat) 0

/-- Member `State::setRegister`: `regs[r - 'a'] = v`. -/
def State.setRegister (s : State) (r : Char) (v : Value) : State :=
  { s with regs := s.regs.set (r.toNat - 'a'.toNat) v }

/-- The `State(const Program&)` constructor: `regs.fill(0)`, `pc{0}`,
default-constructed (empty) queues. -/
def initState : State :=
  { pc := 0, regs := List.replicate 26 0, input := [], output := [] }

/-- Function `evalOperand`: a literal evaluates to itself, a register operand to the
current register value.  (The C++ `throw` branch is unreachable: the variant
is a closed sum.) -/
def evalOperand (s : State) (op : Operand) : Value :=
  match op with
  | .val v => v
  | .reg r => s.getRegister r

/-- The seven `execute` member functions.  `none` marks reachable C++
undefined behavior: `ModInstr::execute` applies `%` without guarding
against a zero divisor.  C++ `%` on nonzero divisors truncates toward zero,
which is `Int.tmod`. -/
def Instr.execute (i : Instr) (s : State) : Option (State × Intr) :=
  match i with
  | .snd x =>
      some ({ s with output := s.output ++ [evalOperand s x], pc := s.pc + 1 }, .Send)
  | .set x y =>
      some ({ s.setRegister x (evalOperand s y) with pc := s.pc + 1 }, .None)
  | .add x y =>
      some ({ s.setRegister x (evalOperand s (.reg x) + evalOperand s y) with
                pc := s.pc + 1 }, .None)
  | .mul x y =>
      some ({ s.setRegister x (evalOperand s (.reg x) * evalOperand s y) with
                pc := s.pc + 1 }, .None)
  | .mod x y =>
      if evalOperand s y = 0 then none
      else
        some ({ s.setRegister x (Int.tmod (evalOperand s (.reg x)) (evalOperand s y)) with
                  pc := s.pc + 1 }, .None)
  | .rcv x =>
      match s.input with
      | [] => some (s, .Receive)
      | v :: rest =>
          some ({ s.setRegister x v with input := rest, pc := s.pc + 1 }, .None)
  | .jgz x y =>
      if evalOperand s x > 0 then
        some ({ s with pc := s.pc + evalOperand s y }, .None)
      else
        some ({ s with pc := s.pc + 1 }, .None)

/-- C++ `using Program = vector<unique_ptr<Instr>>;`. -/
abbrev Program := List Instr

/-- Function `executeOne`: out-of-range program counter returns `Intr::Stop` without
touching the state; otherwise the instruction at `pc` executes. -/
def executeOne (P : Program) (s : State) : Option (State × Intr) :=
  if h : s.pc < 0 ∨ (P.length : Int) ≤ s.pc then
    some (s, .Stop)
  else
    (P.get ⟨s.pc.toNat, by push_neg at h; omega⟩).execute s

/-- The two termination discriminants of `solve_part2`'s loop:
"dead lock" and "Both programs stopped normally". -/
inductive TermKind where
  | deadlock
  | halted
  deriving DecidableEq

/-- Loop state of `solve_part2`: the two machines and `p1SendCount`. -/
structure SchedState where
  s0 : State
  s1 : State
  count : Nat
  deriving DecidableEq

/-- The first drain loop of `solve_part2` (`while(!s0.output.empty()) ...`):
moves the whole output queue, front first, to the back of the input queue.
Returns (remaining output, new input). -/
def drainLoop : List Value → List Value → List Value × List Value
  | [], inp => ([], inp)
  | v :: out, inp => drainLoop out (inp ++ [v])

/-- The second drain loop of `solve_part2`, which additionally increments
`p1SendCount` once per value moved.
Returns (remaining output, new input, new count). -/
def drainCountLoop : List Value → List Value → Nat → List Value × List Value × Nat
  | [], inp, c => ([], inp, c)
  | v :: out, inp, c => drainCountLoop out (inp ++ [v]) (c + 1)

/-- One iteration of `solve_part2`'s `while(true)` loop: step M0, step M1
(unconditionally), drain M0's output into M1's input, drain M1's output
into M0's input (counting), then check deadlock (both `Receive`) and halt
(either `Stop`).  Besides the new loop state it reports the values drained
from M1 this turn and the termination discriminant, if any; `none` is
propagated undefined behavior from a step. -/
def turn (P : Program) (st : SchedState) : Option (SchedState × List Value × Option TermKind) :=
  match executeOne P st.s0 with
  | none => none
  | some (s0a, r0) =>
    match executeOne P st.s1 with
    | none => none
    | some (s1a, r1) =>
      let d0 := drainLoop s0a.output s1a.input
      let s0b := { s0a with output := d0.1 }
      let s1b := { s1a with input := d0.2 }
      let d1 := drainCountLoop s1b.output s0b.input st.count
      let s1c := { s1b with output := d1.1 }
      let s0c := { s0b with input := d1.2.1 }
      let st' : SchedState := ⟨s0c, s1c, d1.2.2⟩
      if r0 = .Receive ∧ r1 = .Receive then
        some (st', s1b.output, some .deadlock)
      else if r0 = .Stop ∨ r1 = .Stop then
        some (st', s1b.output, some .halted)
      else
        some (st', s1b.output, none)

/-- Outcome of running the scheduler loop with finite fuel: `ub` is
propagated undefined behavior, `timeout` is fuel exhaustion (the C++ loop
is unbounded), and `done` carries the final loop state, the concatenated
log of all values drained from M1's output across the turns, and which
termination condition fired. -/
inductive RunRes where
  | ub
  | timeout
  | done (st : SchedState) (log : List Value) (k : TermKind)
  deriving DecidableEq

/-- The `while(true)` loop of `solve_part2`, with fuel. -/
def run (P : Program) : Nat → SchedState → RunRes
  | 0, _ => .timeout
  | fuel + 1, st =>
    match turn P st with
    | none => .ub
    | some (st', d, some k) => .done st' d k
    | some (st', d, none) =>
      match run P fuel st' with
      | .done stf log k => .done stf (d ++ log) k
      | r => r

/-- The initial loop state of `solve_part2`: two fresh `State`s over the
shared program, with register `p` preset to 0 and 1, and `p1SendCount = 0`. -/
def startSched : SchedState :=
  ⟨initState.setRegister 'p' 0, initState.setRegister 'p' 1, 0⟩

/-! ## Parser -/

/-- The exceptions the C++ parser can raise: `std::stoi`'s
`invalid_argument` and `out_of_range` (the latter also from `substr` with
`pos > size()`), `std::get`'s `bad_variant_access`, and the explicit
`throw std::exception()` on an unrecognized mnemonic. -/
inductive PErr where
  | invalidArgument
  | outOfRange
  | badVariantAccess
  | badMnemonic
  deriving DecidableEq

/-- Test `isspace` of the default C locale, as consumed by `std::stoi`. -/
def isSpaceChar (c : Char) : Bool :=
  c = ' ' || c = '\t' || c = '\n' || c = '\x0b' || c = '\x0c' || c = '\r'

/-- Decimal digit test. -/
def isDigitChar (c : Char) : Bool :=
  '0' ≤ c && c ≤ '9'

/-- Value of a decimal digit string. -/
def digitsToNat (ds : List Char) : Nat :=
  ds.foldl (fun a c => a * 10 + (c.toNat - '0'.toNat)) 0

/-- Conversion `std::stoi` (base 10): skip leading whitespace, optional sign, then a
nonempty run of decimal digits; trailing characters are ignored.  Raises
`invalid_argument` when no digits are found, `out_of_range` when the value
does not fit a (32-bit) `int`.  The result is converted exactly by the
`static_cast<Value>` in `parseOperand`. -/
def stoi (l : List Char) : Except PErr Value :=
  let l1 := l.dropWhile isSpaceChar
  let c0 := l1.headD (Char.ofNat 0)
  let l2 := if c0 = '-' ∨ c0 = '+' then l1.tail else l1
  let ds := l2.takeWhile isDigitChar
  if ds.isEmpty then .error .invalidArgument
  else
    let v : Int := if c0 = '-' then -(digitsToNat ds : Int) else (digitsToNat ds : Int)
    if v < -2147483648 ∨ 2147483647 < v then .error .outOfRange
    else .ok v

/-- Function `parseOperand`: a token whose first character is a lowercase letter is
a register reference; anything else goes through `stoi`.  (`s[0]` on an
empty `std::string` is the defined null character, which is not lowercase.) -/
def parseOperand (l : List Char) : Except PErr Operand :=
  let c0 := l.headD (Char.ofNat 0)
  if 'a' ≤ c0 ∧ c0 ≤ 'z' then .ok (.reg c0)
  else (stoi l).map .val

/-- Access `std::get<Register>` on the operand variant. -/
def getRegOf (op : Operand) : Except PErr Char :=
  match op with
  | .reg r => .ok r
  | .val _ => .error .badVariantAccess

/-- Index of the first occurrence of `c` in the list, if any. -/
def findIdx0 (c : Char) : List Char → Option Nat
  | [] => none
  | x :: xs => if x = c then some 0 else (findIdx0 c xs).map (· + 1)

/-- Search `std::string::find(c, i)`: first occurrence at index ≥ `i` (`find`
with a start position past the end returns `npos`, i.e. `none`). -/
def findFrom (c : Char) (l : List Char) (i : Nat) : Option Nat :=
  (findIdx0 c (l.drop i)).map (· + i)

/-- Function `parseInstr`: mnemonic is `substr(0,3)`; the separator between the two
operands is searched from index 5; the first operand is `substr(4, sep-4)`
(whence `out_of_range` when the line is shorter than 4 characters); when
no separator exists the second operand stays default-constructed, i.e. the
variant's first alternative `Value` value-initialized to 0. -/
def parseInstr (l : List Char) : Except PErr Instr :=
  let is := l.take 3
  if l.length < 4 then .error .outOfRange
  else
    let sepPos := findFrom ' ' l 5
    let xs :=
      match sepPos with
      | some p => (l.drop 4).take (p - 4)
      | none => l.drop 4
    do
    let x ← parseOperand xs
    let y ←
      match sepPos with
      | some p => parseOperand (l.drop (p + 1))
      | none => Except.ok (.val 0)
    if is = ['s', 'n', 'd'] then .ok (.snd x)
    else if is = ['s', 'e', 't'] then (getRegOf x).map fun r => .set r y
    else if is = ['a', 'd', 'd'] then (getRegOf x).map fun r => .add r y
    else if is = ['m', 'u', 'l'] then (getRegOf x).map fun r => .mul r y
    else if is = ['m', 'o', 'd'] then (getRegOf x).map fun r => .mod r y
    else if is = ['r', 'c', 'v'] then (getRegOf x).map fun r => .rcv r
    else if is = ['j', 'g', 'z'] then .ok (.jgz x y)
    else .error .badMnemonic

/-- Function `parseProgram`: parse each line in order; the first parse exception
aborts construction. -/
def parseProgram : List (List Char) → Except PErr Program
  | [] => .ok []
  | line :: rest => do
    let i ← parseInstr line
    let p ← parseProgram rest
    .ok (i :: p)

/-! ## Send/receive sequences (used to state the FIFO round-trip) -/

/-- Execute a sequence of `snd` instructions (via `Instr.execute`). -/
def sendAll : List Operand → State → Option State
  | [], s => some s
  | op :: ops, s =>
    match Instr.execute (.snd op) s with
    | some (s', .Send) => sendAll ops s'
    | _ => none

/-- Execute the `rcv x` instruction `n` times (via `Instr.execute`),
collecting the received values (the value left in register `x` by each
successful receive) in order; fails if any receive blocks. -/
def recvAll (x : Char) : Nat → State → Option (State × List Value)
  | 0, s => some (s, [])
  | n + 1, s =>
    match Instr.execute (.rcv x) s with
    | some (s', .None) =>
      match recvAll x n s' with
      | some (s'', vs) => some (s'', s'.getRegister x :: vs)
      | none => none
    | _ => none

/-! ## Helper lemmas -/

theorem char_le_iff {a b : Char} : a ≤ b ↔ a.toNat ≤ b.toNat := Iff.rfl

theorem char_eq_of_toNat_eq {a b : Char} (h : a.toNat = b.toNat) : a = b :=
  Char.ext (UInt32.toNat.inj h)

theorem getD_replicate_zero (i : Nat) : (List.replicate 26 (0 : Value)).getD i 0 = 0 := by
  rw [List.getD_eq_getElem?_getD, List.getElem?_replicate]
  split <;> rfl

theorem getRegister_set_self (s : State) (c : Char) (v : Value)
    (h : c.toNat - 'a'.toNat < s.regs.length) :
    (s.setRegister c v).getRegister c = v := by
  have h' : c.toNat - 97 < s.regs.length := by simpa using h
  simp [State.getRegister, State.setRegister, List.getD_eq_getElem?_getD,
        List.getElem?_set_self h']

theorem length_regs_set (s : State) (c : Char) (v : Value) :
    (s.setRegister c v).regs.length = s.regs.length := by
  simp [State.setRegister]

theorem getRegister_set_ne (s : State) (c d : Char) (v : Value)
    (h : d.toNat - 'a'.toNat ≠ c.toNat - 'a'.toNat) :
    (s.setRegister d v).getRegister c = s.getRegister c := by
  simp only [State.getRegister, State.setRegister]
  rw [List.getD_eq_getElem?_getD, List.getD_eq_getElem?_getD, List.getElem?_set_ne h]

theorem drainLoop_spec : ∀ (out inp : List Value), drainLoop out inp = ([], inp ++ out)
  | [], inp => by simp [drainLoop]
  | v :: t, inp => by
    rw [drainLoop, drainLoop_spec t (inp ++ [v])]
    simp

theorem drainCountLoop_spec : ∀ (out inp : List Value) (c : Nat),
    drainCountLoop out inp c = ([], inp ++ out, c + out.length)
  | [], inp, c => by simp [drainCountLoop]
  | v :: t, inp, c => by
    rw [drainCountLoop, drainCountLoop_spec t (inp ++ [v]) (c + 1)]
    simp
    omega

theorem takeWhile_all {p : Char → Bool} :
    ∀ {l : List Char}, (∀ c ∈ l, p c = true) → l.takeWhile p = l := by
  intro l
  induction l with
  | nil => intro _; rfl
  | cons a t ih =>
    intro h
    rw [List.takeWhile_cons_of_pos (h a (List.mem_cons_self a t)),
        ih fun c hc => h c (List.mem_cons_of_mem a hc)]

theorem findIdx0_eq_none {c : Char} :
    ∀ {l : List Char}, c ∉ l → findIdx0 c l = none := by
  intro l
  induction l with
  | nil => intro _; rfl
  | cons a t ih =>
    intro h
    rw [findIdx0, if_neg fun he => h (by rw [← he]; exact List.mem_cons_self a t),
        ih fun hm => h (List.mem_cons_of_mem a hm)]
    rfl

theorem sendAll_vals : ∀ (vs : List Value) (s : State),
    ∃ s', sendAll (vs.map .val) s = some s' ∧ s'.output = s.output ++ vs := by
  intro vs
  induction vs with
  | nil => intro s; exact ⟨s, rfl, by simp⟩
  | cons v t ih =>
    intro s
    obtain ⟨s', h1, h2⟩ := ih { s with output := s.output ++ [v], pc := s.pc + 1 }
    refine ⟨s', ?_, ?_⟩
    · rw [List.map_cons, sendAll, Instr.execute]
      exact h1
    · rw [h2]
      simp

theorem recvAll_spec : ∀ (vs : List Value) (s : State) (x : Char),
    x.toNat - 'a'.toNat < s.regs.length → ∀ rest : List Value,
    s.input = vs ++ rest →
    ∃ s', recvAll x vs.length s = some (s', vs) ∧ s'.input = rest := by
  intro vs
  induction vs with
  | nil =>
    intro s x _ rest hin
    exact ⟨s, rfl, by simpa using hin⟩
  | cons v t ih =>
    intro s x hx rest hin
    have hstep : Instr.execute (.rcv x) s =
        some ({ s.setRegister x v with input := t ++ rest, pc := s.pc + 1 }, .None) := by
      simp [Instr.execute, hin]
    have hx1 : x.toNat - 'a'.toNat <
        ({ s.setRegister x v with input := t ++ rest, pc := s.pc + 1 } : State).regs.length := by
      simpa [State.setRegister] using hx
    obtain ⟨s', h1, h2⟩ :=
      ih { s.setRegister x v with input := t ++ rest, pc := s.pc + 1 } x hx1 rest rfl
    refine ⟨s', ?_, h2⟩
    have hv : ({ s.setRegister x v with input := t ++ rest, pc := s.pc + 1 } : State).getRegister x
        = v := getRegister_set_self s x v hx
    show recvAll x (t.length + 1) s = some (s', v :: t)
    rw [recvAll, hstep]
    dsimp only
    rw [h1]
    dsimp only
    rw [hv]

theorem char_ne_of_toNat_ne {c e : Char} (h : c.toNat ≠ e.toNat) : c ≠ e :=
  fun he => h (congrArg Char.toNat he)

theorem isDigit_toNat {c : Char} (h : isDigitChar c = true) :
    48 ≤ c.toNat ∧ c.toNat ≤ 57 := by
  simp only [isDigitChar, Bool.and_eq_true, decide_eq_true_eq] at h
  have h48 : ('0').toNat = 48 := by decide
  have h57 : ('9').toNat = 57 := by decide
  constructor
  · have hh := char_le_iff.mp h.1
    rw [h48] at hh
    exact hh
  · have hh := char_le_iff.mp h.2
    rw [h57] at hh
    exact hh

theorem digit_aux {c : Char} (h : isDigitChar c = true) :
    isSpaceChar c = false ∧ ¬(c = '-' ∨ c = '+') ∧ c ≠ '-' ∧
    ¬('a' ≤ c ∧ c ≤ 'z') := by
  have hb := isDigit_toNat h
  have h32 : (' ').toNat = 32 := by decide
  have h9 : ('\t').toNat = 9 := by decide
  have h10 : ('\n').toNat = 10 := by decide
  have h11 : ('\x0b').toNat = 11 := by decide
  have h12 : ('\x0c').toNat = 12 := by decide
  have h13 : ('\r').toNat = 13 := by decide
  have h45 : ('-').toNat = 45 := by decide
  have h43 : ('+').toNat = 43 := by decide
  have h97 : ('a').toNat = 97 := by decide
  refine ⟨?_, ?_, ?_, ?_⟩
  · simp only [isSpaceChar, Bool.or_eq_false_iff, decide_eq_false_iff_not]
    refine ⟨⟨⟨⟨⟨?_, ?_⟩, ?_⟩, ?_⟩, ?_⟩, ?_⟩
    · exact char_ne_of_toNat_ne (by rw [h32]; omega)
    · exact char_ne_of_toNat_ne (by rw [h9]; omega)
    · exact char_ne_of_toNat_ne (by rw [h10]; omega)
    · exact char_ne_of_toNat_ne (by rw [h11]; omega)
    · exact char_ne_of_toNat_ne (by rw [h12]; omega)
    · exact char_ne_of_toNat_ne (by rw [h13]; omega)
  · rintro (rfl | rfl)
    · rw [h45] at hb; omega
    · rw [h43] at hb; omega
  · exact char_ne_of_toNat_ne (by rw [h45]; omega)
  · rintro ⟨hc, -⟩
    have hh := char_le_iff.mp hc
    rw [h97] at hh
    omega

theorem turn_count (P : Program) (st st' : SchedState) (d : List Value)
    (osig : Option TermKind) (h : turn P st = some (st', d, osig)) :
    st'.count = st.count + d.length := by
  unfold turn at h
  cases e0 : executeOne P st.s0 with
  | none => rw [e0] at h; exact absurd h (by simp)
  | some p0 =>
    obtain ⟨s0a, r0⟩ := p0
    rw [e0] at h
    dsimp only at h
    cases e1 : executeOne P st.s1 with
    | none => rw [e1] at h; exact absurd h (by simp)
    | some p1 =>
      obtain ⟨s1a, r1⟩ := p1
      rw [e1] at h
      dsimp only at h
      rw [drainLoop_spec, drainCountLoop_spec] at h
      split_ifs at h <;>
      · simp only [Option.some.injEq, Prod.mk.injEq] at h
        obtain ⟨h1, h2, -⟩ := h
        rw [← h1, ← h2]

/-! ## Claims -/

/-- C1: single-stepping a machine whose program counter is outside
`[0, program length)` signals `Stop` and leaves the state unchanged; for a
program counter inside the range, `executeOne` is exactly the execution of
the instruction at that index (state effect and signal). -/
theorem executeOne_contract (P : Program) (s : State) :
    (s.pc < 0 ∨ (P.length : Int) ≤ s.pc → executeOne P s = some (s, .Stop)) ∧
    (∀ i : Instr, 0 ≤ s.pc → P.get? s.pc.toNat = some i →
      executeOne P s = i.execute s) := by
  constructor
  · intro h
    unfold executeOne
    rw [dif_pos h]
  · intro i h0 hi
    obtain ⟨hlt, hget⟩ := List.get?_eq_some.mp hi
    unfold executeOne
    rw [dif_neg (by push_neg; omega)]
    exact congrArg (fun j => Instr.execute j s) hget

/-- C1 witness: with the one-instruction program `[rcv a]`, a negative
program counter halts without mutation, and program counter 0 runs the
`rcv` instruction. -/
theorem executeOne_contract_wit :
    executeOne [Instr.rcv 'a'] { initState with pc := -1 } =
      some ({ initState with pc := -1 }, .Stop) ∧
    executeOne [Instr.rcv 'a'] initState = Instr.execute (.rcv 'a') initState :=
  ⟨(executeOne_contract [Instr.rcv 'a'] { initState with pc := -1 }).1 (by decide),
   (executeOne_contract [Instr.rcv 'a'] initState).2 (.rcv 'a') (by decide) (by decide)⟩

/-- C4: `rcv x` on an empty input queue leaves the machine state untouched
(the same state, hence re-executing yields the identical state again) and
signals `Receive`; on a non-empty queue it pops the front value into
register `x`, advances the program counter, and signals `None`. -/
theorem rcv_semantics (s : State) (x : Char) :
    (s.input = [] →
      Instr.execute (.rcv x) s = some (s, .Receive) ∧
      (Instr.execute (.rcv x) s).bind (fun p => Instr.execute (.rcv x) p.1) =
        some (s, .Receive)) ∧
    (∀ (v : Value) (rest : List Value), s.input = v :: rest →
      Instr.execute (.rcv x) s =
        some ({ s.setRegister x v with input := rest, pc := s.pc + 1 }, .None)) := by
  constructor
  · intro h
    have he : Instr.execute (.rcv x) s = some (s, .Receive) := by
      simp [Instr.execute, h]
    exact ⟨he, by rw [he]; simpa using he⟩
  · intro v rest h
    simp [Instr.execute, h]

/-- C4 witness: a blocked receive on the empty initial state, and a
successful receive popping 5 into register `a`. -/
theorem rcv_semantics_wit :
    Instr.execute (.rcv 'a') initState = some (initState, .Receive) ∧
    Instr.execute (.rcv 'a') { initState with input := [5] } =
      some ({ initState.setRegister 'a' 5 with input := [], pc := 1 }, .None) :=
  ⟨((rcv_semantics initState 'a').1 rfl).1,
   ((rcv_semantics { initState with input := [5] } 'a').2 5 [] rfl).trans (by decide)⟩

/-- C7 counterexample: executing `mod a 0` from the fresh state has no
defined outcome — the C++ applies `%` unguarded, so a zero divisor is
undefined behavior, not a propagated runtime error. -/
theorem mod_zero_cex : Instr.execute (.mod 'a' (.val 0)) initState = none := by decide

/-- C7 amended: whenever the second operand of `mod` evaluates to 0, the
unguarded `%` is undefined behavior: execution yields no defined outcome. -/
theorem mod_zero_ub (s : State) (x : Char) (y : Operand)
    (h : evalOperand s y = 0) :
    Instr.execute (.mod x y) s = none := by
  simp [Instr.execute, h]

/-- C7 amended witness: `mod b 0` from the fresh state. -/
theorem mod_zero_ub_wit : Instr.execute (.mod 'b' (.val 0)) initState = none :=
  mod_zero_ub initState 'b' (.val 0) (by decide)

/-- C6 counterexample: the line `set a`, which carries a two-operand
mnemonic but only one operand token, parses successfully (to `set a 0`)
instead of failing with a parse error. -/
theorem parse_missing_operand_cex :
    parseInstr ['s', 'e', 't', ' ', 'a'] = .ok (.set 'a' (.val 0)) := by decide

/-- C8 counterexample: the literal 2147483648 is representable in signed
64 bits, yet `parseOperand` rejects it: `stoi` parses into a 32-bit `int`
and raises `out_of_range`. -/
theorem parse_literal_cex :
    parseOperand ['2', '1', '4', '7', '4', '8', '3', '6', '4', '8'] =
      .error .outOfRange ∧ (2147483648 : Int) < 2 ^ 63 := by decide

/-- C9: the two-line program `snd p` / `rcv a`, run with register `p`
preset to 0 and 1, terminates via the halt condition with M1 having sent
exactly one value (its `p`, namely 1, delivered into M0's register `a`),
M0's value 0 delivered into M1's register `a`, and final sent-count 1. -/
theorem run_sndp_rcva :
    parseProgram [['s', 'n', 'd', ' ', 'p'], ['r', 'c', 'v', ' ', 'a']] =
      .ok [.snd (.reg 'p'), .rcv 'a'] ∧
    run [.snd (.reg 'p'), .rcv 'a'] 10 startSched =
      .done ⟨⟨2, (List.replicate 26 0).set 0 1, [], []⟩,
             ⟨2, ((List.replicate 26 0).set 15 1).set 0 0, [], []⟩, 1⟩
        [1] .halted := by decide

/-- C2: a turn of the scheduler reports deadlock exactly when, that turn,
the step of M0 and the step of M1 both signaled `Receive`; the check runs
after the drains (which cannot change the captured signals), and on no
other combination of signals is deadlock reported. -/
theorem deadlock_iff_both_blocked (P : Program) (st st' : SchedState)
    (d : List Value) (osig : Option TermKind)
    (h : turn P st = some (st', d, osig)) :
    osig = some .deadlock ↔
      ((executeOne P st.s0).map Prod.snd = some .Receive ∧
       (executeOne P st.s1).map Prod.snd = some .Receive) := by
  unfold turn at h
  cases e0 : executeOne P st.s0 with
  | none => rw [e0] at h; exact absurd h (by simp)
  | some p0 =>
    obtain ⟨s0a, r0⟩ := p0
    rw [e0] at h
    dsimp only at h
    cases e1 : executeOne P st.s1 with
    | none => rw [e1] at h; exact absurd h (by simp)
    | some p1 =>
      obtain ⟨s1a, r1⟩ := p1
      rw [e1] at h
      dsimp only at h
      simp only [Option.map_some', Option.some.injEq]
      by_cases hr : r0 = .Receive ∧ r1 = .Receive
      · rw [if_pos hr] at h
        simp only [Option.some.injEq, Prod.mk.injEq] at h
        obtain ⟨-, -, h3⟩ := h
        rw [← h3]
        simp [hr.1, hr.2]
      · rw [if_neg hr] at h
        have hne : osig ≠ some .deadlock := by
          split_ifs at h <;>
          · simp only [Option.some.injEq, Prod.mk.injEq] at h
            obtain ⟨-, -, h3⟩ := h
            rw [← h3]
            simp
        constructor
        · intro hd; exact absurd hd hne
        · intro hh; exact absurd ⟨hh.1, hh.2⟩ hr

/-- C2 witness: with the program `[rcv a]` both machines block on the
first turn, deadlock is reported, and both step signals are `Receive`. -/
theorem deadlock_iff_both_blocked_wit :
    (executeOne [Instr.rcv 'a'] startSched.s0).map Prod.snd = some .Receive ∧
    (executeOne [Instr.rcv 'a'] startSched.s1).map Prod.snd = some .Receive :=
  (deadlock_iff_both_blocked [Instr.rcv 'a'] startSched
      ⟨startSched.s0, startSched.s1, 0⟩ [] (some .deadlock) (by decide)).mp rfl

/-- C3: whenever the scheduler run terminates, the final count equals the
initial count plus the number of values drained from M1's output queue
into M0's input queue over all turns (the count is incremented once per
value moved). -/
theorem run_count_eq_drained (P : Program) :
    ∀ (fuel : Nat) (st stf : SchedState) (log : List Value) (k : TermKind),
      run P fuel st = .done stf log k → stf.count = st.count + log.length := by
  intro fuel
  induction fuel with
  | zero =>
    intro st stf log k h
    exact absurd h (by simp [run])
  | succ n ih =>
    intro st stf log k h
    unfold run at h
    cases ht : turn P st with
    | none => rw [ht] at h; exact absurd h (by simp)
    | some trip =>
      obtain ⟨st', d, osig⟩ := trip
      rw [ht] at h
      cases osig with
      | some k2 =>
        dsimp only at h
        simp only [RunRes.done.injEq] at h
        obtain ⟨h1, h2, -⟩ := h
        rw [← h1, ← h2]
        exact turn_count P st st' d _ ht
      | none =>
        dsimp only at h
        cases hr : run P n st' with
        | done stf2 log2 k3 =>
          rw [hr] at h
          simp only [RunRes.done.injEq] at h
          obtain ⟨h1, h2, -⟩ := h
          have hc1 := turn_count P st st' d none ht
          have hc2 := ih st' stf2 log2 k3 hr
          rw [← h1, ← h2, hc2, hc1]
          simp
          omega
        | ub => rw [hr] at h; exact absurd h (by simp)
        | timeout => rw [hr] at h; exact absurd h (by simp)

/-- C3 witness: the `snd p` / `rcv a` run terminates with count 1 after
draining exactly the one value `[1]` from M1. -/
theorem run_count_eq_drained_wit :
    (SchedState.mk ⟨2, (List.replicate 26 0).set 0 1, [], []⟩
        ⟨2, ((List.replicate 26 0).set 15 1).set 0 0, [], []⟩ 1).count =
      startSched.count + [(1 : Value)].length :=
  run_count_eq_drained [.snd (.reg 'p'), .rcv 'a'] 10 startSched _ [1] .halted
    (by decide)

/-- C5: values sent by one machine are received by the partner exactly, in
FIFO order, for any number of sends: executing the sends leaves the values
in the output queue in send order, the drain moves the whole queue into
the partner's input preserving that order, and executing that many
receives pops exactly the sent values in the sent order. -/
theorem fifo_roundtrip (vs : List Value) (sA sB : State) (x : Char)
    (hA : sA.output = []) (hB : sB.input = [])
    (hx : x.toNat - 'a'.toNat < sB.regs.length) :
    (sendAll (vs.map .val) sA).map State.output = some vs ∧
    (∀ sA', sendAll (vs.map .val) sA = some sA' →
      drainLoop sA'.output sB.input = ([], vs)) ∧
    (recvAll x vs.length { sB with input := vs }).map Prod.snd = some vs := by
  obtain ⟨sA', h1, h2⟩ := sendAll_vals vs sA
  refine ⟨?_, ?_, ?_⟩
  · rw [h1, Option.map_some', h2, hA]
    simp
  · intro sA'' h
    rw [h1] at h
    obtain rfl := Option.some.inj h
    rw [h2, hA, hB, drainLoop_spec]
    simp
  · obtain ⟨s', r1, -⟩ :=
      recvAll_spec vs { sB with input := vs } x hx [] (by simp)
    rw [r1, Option.map_some']

/-- C5 witness: sending 3, 1, 2 leaves `[3, 1, 2]` in the output queue,
and three receives from an input queue holding `[3, 1, 2]` return exactly
`[3, 1, 2]`. -/
theorem fifo_roundtrip_wit :
    (sendAll ([3, 1, 2].map Operand.val) initState).map State.output =
      some [3, 1, 2] ∧
    (recvAll 'c' 3 { initState with input := [3, 1, 2] }).map Prod.snd =
      some [3, 1, 2] :=
  ⟨(fifo_roundtrip [3, 1, 2] initState initState 'c' rfl rfl (by decide)).1,
   (fifo_roundtrip [3, 1, 2] initState initState 'c' rfl rfl (by decide)).2.2⟩

/-- Evaluation of `parseInstr` on a line whose single operand token
contains no separator at index ≥ 5: the second operand stays the
default-constructed variant, literal 0. -/
theorem parseInstr_no_sep (m1 m2 m3 : Char) (tok : List Char) (hsp : ' ' ∉ tok) :
    parseInstr ([m1, m2, m3, ' '] ++ tok) =
      ((parseOperand tok).bind fun x =>
        if [m1, m2, m3] = ['s', 'n', 'd'] then .ok (.snd x)
        else if [m1, m2, m3] = ['s', 'e', 't'] then
          (getRegOf x).map fun r => .set r (.val 0)
        else if [m1, m2, m3] = ['a', 'd', 'd'] then
          (getRegOf x).map fun r => .add r (.val 0)
        else if [m1, m2, m3] = ['m', 'u', 'l'] then
          (getRegOf x).map fun r => .mul r (.val 0)
        else if [m1, m2, m3] = ['m', 'o', 'd'] then
          (getRegOf x).map fun r => .mod r (.val 0)
        else if [m1, m2, m3] = ['r', 'c', 'v'] then
          (getRegOf x).map fun r => .rcv r
        else if [m1, m2, m3] = ['j', 'g', 'z'] then .ok (.jgz x (.val 0))
        else .error .badMnemonic) := by
  have hlen : ¬ (([m1, m2, m3, ' '] ++ tok).length < 4) := by simp
  have hfind : findFrom ' ' ([m1, m2, m3, ' '] ++ tok) 5 = none := by
    show (findIdx0 ' ' (tok.drop 1)).map (· + 5) = none
    rw [findIdx0_eq_none fun hm => hsp (List.mem_of_mem_drop hm)]
    rfl
  unfold parseInstr
  rw [if_neg hlen, hfind]
  rfl

/-- C6 amended: on a line whose mnemonic requires two operands but which
carries only one operand token, the missing second operand never itself
causes a parse error — it stays the default-constructed variant, literal
0.  The line parses successfully exactly when the single token is valid
as the first operand for that mnemonic: a register token yields the
instruction with second operand 0 (for `jgz` a literal token does too);
a literal token under `set`/`add`/`mul`/`mod` fails with
`bad_variant_access` from `get<Register>`, and a token that `parseOperand`
itself rejects propagates that error. -/
theorem parse_missing_operand_defaults (tok : List Char) (hsp : ' ' ∉ tok) :
    (∀ r : Char, parseOperand tok = .ok (.reg r) →
      parseInstr (['s', 'e', 't', ' '] ++ tok) = .ok (.set r (.val 0)) ∧
      parseInstr (['a', 'd', 'd', ' '] ++ tok) = .ok (.add r (.val 0)) ∧
      parseInstr (['m', 'u', 'l', ' '] ++ tok) = .ok (.mul r (.val 0)) ∧
      parseInstr (['m', 'o', 'd', ' '] ++ tok) = .ok (.mod r (.val 0)) ∧
      parseInstr (['j', 'g', 'z', ' '] ++ tok) = .ok (.jgz (.reg r) (.val 0))) ∧
    (∀ v : Value, parseOperand tok = .ok (.val v) →
      parseInstr (['s', 'e', 't', ' '] ++ tok) = .error .badVariantAccess ∧
      parseInstr (['a', 'd', 'd', ' '] ++ tok) = .error .badVariantAccess ∧
      parseInstr (['m', 'u', 'l', ' '] ++ tok) = .error .badVariantAccess ∧
      parseInstr (['m', 'o', 'd', ' '] ++ tok) = .error .badVariantAccess ∧
      parseInstr (['j', 'g', 'z', ' '] ++ tok) = .ok (.jgz (.val v) (.val 0))) ∧
    (∀ e : PErr, parseOperand tok = .error e →
      parseInstr (['s', 'e', 't', ' '] ++ tok) = .error e ∧
      parseInstr (['a', 'd', 'd', ' '] ++ tok) = .error e ∧
      parseInstr (['m', 'u', 'l', ' '] ++ tok) = .error e ∧
      parseInstr (['m', 'o', 'd', ' '] ++ tok) = .error e ∧
      parseInstr (['j', 'g', 'z', ' '] ++ tok) = .error e) := by
  refine ⟨?_, ?_, ?_⟩ <;>
  · intro a ha
    refine ⟨?_, ?_, ?_, ?_, ?_⟩ <;>
    · rw [parseInstr_no_sep _ _ _ tok hsp, ha]
      rfl

/-- C6 amended witness: the one-operand line `add b` parses to `add b 0`,
while `set 5` — one operand token, but a literal where a register is
required — fails with `bad_variant_access`. -/
theorem parse_missing_operand_defaults_wit :
    parseInstr ['a', 'd', 'd', ' ', 'b'] = .ok (.add 'b' (.val 0)) ∧
    parseInstr ['s', 'e', 't', ' ', '5'] = .error .badVariantAccess :=
  ⟨((parse_missing_operand_defaults ['b'] (by decide)).1 'b' (by decide)).2.1,
   ((parse_missing_operand_defaults ['5'] (by decide)).2.1 5 (by decide)).1⟩

/-- C8 amended: a non-register operand token parses as a signed decimal
integer literal (optionally with a leading minus sign), but through
`std::stoi`'s 32-bit `int`: every literal whose value fits in
`[-2147483648, 2147483647]` parses successfully to that exact value
(literals only representable in 64 bits raise `out_of_range`). -/
theorem parseOperand_int_literal (neg : Bool) (ds : List Char)
    (hne : ds ≠ []) (hds : ∀ c ∈ ds, isDigitChar c = true)
    (hlo : -2147483648 ≤ (if neg then -(digitsToNat ds : Int) else (digitsToNat ds : Int)))
    (hhi : (if neg then -(digitsToNat ds : Int) else (digitsToNat ds : Int)) ≤ 2147483647) :
    parseOperand ((if neg then ['-'] else []) ++ ds) =
      .ok (.val (if neg then -(digitsToNat ds : Int) else (digitsToNat ds : Int))) := by
  obtain ⟨d, t, rfl⟩ : ∃ d t, ds = d :: t := by
    cases ds with
    | nil => exact absurd rfl hne
    | cons d t => exact ⟨d, t, rfl⟩
  obtain ⟨hdsp, hdsign, hdminus, hdlow⟩ := digit_aux (hds d (List.mem_cons_self d t))
  cases neg with
  | false =>
    simp only [Bool.false_eq_true, if_false, List.nil_append] at hlo hhi ⊢
    simp only [parseOperand, List.headD_cons]
    rw [if_neg hdlow]
    unfold stoi
    rw [List.dropWhile_cons_of_neg (by simp [hdsp])]
    simp only [List.headD_cons]
    rw [if_neg hdsign, takeWhile_all hds,
        if_neg (by simp : ¬((d :: t).isEmpty = true)), if_neg hdminus,
        if_neg (by rw [not_or]; constructor <;> omega)]
    rfl
  | true =>
    simp only [if_true, List.cons_append, List.nil_append] at hlo hhi ⊢
    simp only [parseOperand, List.headD_cons]
    rw [if_neg (by decide)]
    unfold stoi
    rw [List.dropWhile_cons_of_neg (by decide)]
    simp only [List.headD_cons, List.tail_cons]
    rw [if_pos (Or.inl trivial), takeWhile_all hds,
        if_neg (by simp : ¬((d :: t).isEmpty = true)), if_pos trivial,
        if_neg (by rw [not_or]; constructor <;> omega)]
    rfl

/-- C8 amended witness: the token `42` parses to the literal 42. -/
theorem parseOperand_int_literal_wit : parseOperand ['4', '2'] = .ok (.val 42) :=
  (parseOperand_int_literal false ['4', '2'] (by decide) (by decide)
    (by decide) (by decide)).trans (by decide)

/-- C10: a newly constructed machine state has program counter 0, empty
queues, and every lowercase register equal to 0; after the `p` presets of
the scheduler, every register other than `p` still reads 0 in both
machines. -/
theorem initState_zeroed (c : Char) (h1 : 'a' ≤ c) (h2 : c ≤ 'z') :
    initState.pc = 0 ∧ initState.input = [] ∧ initState.output = [] ∧
    initState.getRegister c = 0 ∧
    (c ≠ 'p' →
      startSched.s0.getRegister c = 0 ∧ startSched.s1.getRegister c = 0) := by
  have hc1 : 97 ≤ c.toNat := char_le_iff.mp h1
  have hc2 : c.toNat ≤ 122 := char_le_iff.mp h2
  refine ⟨rfl, rfl, rfl, getD_replicate_zero _, ?_⟩
  intro hp
  have hc3 : c.toNat ≠ 112 := fun h =>
    hp (char_eq_of_toNat_eq (h.trans (by decide)))
  have hidx : 'p'.toNat - 'a'.toNat ≠ c.toNat - 'a'.toNat := by
    have e1 : 'p'.toNat = 112 := by decide
    have e2 : 'a'.toNat = 97 := by decide
    omega
  constructor
  · show (initState.setRegister 'p' 0).getRegister c = 0
    rw [getRegister_set_ne initState c 'p' 0 hidx]
    exact getD_replicate_zero _
  · show (initState.setRegister 'p' 1).getRegister c = 0
    rw [getRegister_set_ne initState c 'p' 1 hidx]
    exact getD_replicate_zero _

/-- C10 witness: register `b` of the fresh state and of both preset
machines reads 0. -/
theorem initState_zeroed_wit :
    initState.getRegister 'b' = 0 ∧ startSched.s0.getRegister 'b' = 0 ∧
    startSched.s1.getRegister 'b' = 0 :=
  ⟨(initState_zeroed 'b' (by decide) (by decide)).2.2.2.1,
   ((initState_zeroed 'b' (by decide) (by decide)).2.2.2.2 (by decide)).1,
   ((initState_zeroed 'b' (by decide) (by decide)).2.2.2.2 (by decide)).2⟩

end Day18
